import Mathlib

/-!
Verification of the ostree FUSE adapter (`src/main.rs`).

The development shallowly embeds the four `fuser::Filesystem` handlers of
`MyFS` (`readdir`, `lookup`, `getattr`, `read`), the attribute translator
`info2attr`, and the inode/path table (`inoMap`, `pathMap`, `inoIndex`).

Modelling conventions:
* Rust `String` / `OsStr` values are modelled as their byte sequences
  (`List Nat`); `OsStr::to_str` is the UTF-8 validity check `utf8Valid`,
  and an `unwrap` of a failed conversion is the `panicked` outcome.
* The gio/ostree tree source (an external collaborator) is an abstract
  `TreeSource` record of pure path-keyed query functions; the mounted
  commit root is the empty path `[]`.
* The two `HashMap`s are association lists with first-match lookup and
  replace-or-append insertion, which has the same observable behaviour.
* `u64` arithmetic on the allocation counter is `Nat` with an explicit
  `% 2 ^ 64` at the single increment site (`inoIndex += 1`, release-mode
  wrapping semantics).
* The kernel reply sink for directory listings is modelled by a capacity
  `cap` (the maximal number of entries the buffer accepts);
  `ReplyDirectory::add` appends when the buffer is not yet full and
  returns `true` exactly when the buffer is full (fuser's contract).
-/

/-- gio `FileType` as consumed by the source (`info.file_type()`). -/
inductive GFileType
  | unknown
  | regular
  | directory
  | symbolicLink
  | special
  | shortcut
  | mountable
deriving DecidableEq, Repr

/-- fuser `FileType`: the source only ever produces these two kinds. -/
inductive FileType
  | directory
  | regularFile
deriving DecidableEq, Repr

/-- The part of a gio `FileInfo` record that the source reads: `name()`
(as bytes), `size()`, `modification_time()` and `file_type()`. -/
structure FileInfoR where
  name : List Nat
  size : Nat
  mtime : Nat
  fileType : GFileType
deriving DecidableEq, Repr

/-- fuser `FileAttr`, field for field as in the source. -/
structure FileAttr where
  ino : Nat
  size : Nat
  blocks : Nat
  atime : Nat
  mtime : Nat
  ctime : Nat
  crtime : Nat
  kind : FileType
  perm : Nat
  nlink : Nat
  uid : Nat
  gid : Nat
  rdev : Nat
  flags : Nat
  blksize : Nat
deriving DecidableEq, Repr

/-- Is `b` a UTF-8 continuation byte (`0x80 ≤ b < 0xC0`)? -/
def contB (b : Nat) : Bool := 128 ≤ b && b < 192

/-- UTF-8 validity of a byte sequence, as checked by Rust's
`OsStr::to_str` (i.e. `str::from_utf8`): rejects lone continuation
bytes, overlong encodings, surrogates and code points above `U+10FFFF`. -/
def utf8Valid : List Nat → Bool
  | [] => true
  | b :: bs =>
    if b < 128 then utf8Valid bs
    else if b < 194 then false
    else if b < 224 then
      match bs with
      | b1 :: bs1 => contB b1 && utf8Valid bs1
      | [] => false
    else if b < 240 then
      match bs with
      | b1 :: b2 :: bs2 =>
        (if b == 224 then 160 ≤ b1 && b1 < 192
         else if b == 237 then 128 ≤ b1 && b1 < 160
         else contB b1) && contB b2 && utf8Valid bs2
      | _ => false
    else if b < 245 then
      match bs with
      | b1 :: b2 :: b3 :: bs3 =>
        (if b == 240 then 144 ≤ b1 && b1 < 192
         else if b == 244 then 128 ≤ b1 && b1 < 144
         else contB b1) && contB b2 && contB b3 && utf8Valid bs3
      | _ => false
    else false

/-- First-match lookup in an association list (`HashMap::get`). -/
def lookupA {α β : Type} [DecidableEq α] (k : α) : List (α × β) → Option β
  | [] => none
  | (k', v') :: t => if k' = k then some v' else lookupA k t

/-- Replace-or-append insertion into an association list
(`HashMap::insert`). -/
def insertA {α β : Type} [DecidableEq α] (k : α) (v : β) :
    List (α × β) → List (α × β)
  | [] => [(k, v)]
  | (k', v') :: t => if k' = k then (k, v) :: t else (k', v') :: insertA k v t

/-- The modulus `2 ^ 64` of Rust `u64` arithmetic. -/
def U64 : Nat := 2 ^ 64

/-- The adapter state `MyFS` (minus the gio handle, which is carried
separately as the `TreeSource`): `inoMap : HashMap<u64, String>`,
`pathMap : HashMap<String, u64>`, `inoIndex : u64`. -/
structure MyFS where
  inoMap : List (Nat × List Nat)
  pathMap : List (List Nat × Nat)
  inoIndex : Nat
deriving DecidableEq, Repr

/-- The state seeded by `refs()` before mounting: inode `1` ↔ the empty
path, `inoIndex = 1`. -/
def initFS : MyFS :=
  { inoMap := [(1, [])], pathMap := [([], 1)], inoIndex := 1 }

/-- The external tree source (gio/ostree), keyed by the relative path
bytes handed to `resolve_relative_path`; the commit root is `[]`.
`queryInfo` is `query_info`, `enumerateChildren` is
`enumerate_children` (each yielded item is itself a `Result`, hence
`Option FileInfoR`), `loadBytes` is `load_bytes`. -/
structure TreeSource where
  queryInfo : List Nat → Option FileInfoR
  enumerateChildren : List Nat → Option (List (Option FileInfoR))
  loadBytes : List Nat → Option (List Nat)

/-- The attribute translator `info2attr`, field for field from the source: a zero reported size
is replaced by `4096`; directories keep kind/permission `0o755`, every
other gio file type becomes a regular file with `0o644`; all four
timestamps are the single modification instant. -/
def info2attr (info : FileInfoR) (ino : Nat) : FileAttr :=
  let size := info.size
  let size := if size == 0 then 4096 else size
  { ino := ino
    size := size
    blksize := 512
    blocks := 0
    atime := info.mtime
    mtime := info.mtime
    ctime := info.mtime
    crtime := info.mtime
    kind := match info.fileType with
      | GFileType.directory => FileType.directory
      | _ => FileType.regularFile
    perm := match info.fileType with
      | GFileType.directory => 493
      | _ => 420
    nlink := 0
    uid := 1000
    gid := 1000
    rdev := 0
    flags := 0 }

/-- The shared assign-or-get logic inlined at the two allocation sites
(readdir lines 96–102/113–114 and lookup lines 143–151): look the path
up in `pathMap`; if absent, bump `inoIndex` (u64 wrap) and use the new
value; then insert the pair into both maps (the source inserts
unconditionally, also when the path was already known). Returns the
inode, the new state, and the list of freshly allocated inodes. -/
def assignOrGet (path : List Nat) (st : MyFS) : Nat × MyFS × List Nat :=
  match lookupA path st.pathMap with
  | some i =>
    (i, { inoMap := insertA i path st.inoMap
          pathMap := insertA path i st.pathMap
          inoIndex := st.inoIndex }, [])
  | none =>
    let idx := (st.inoIndex + 1) % U64
    (idx, { inoMap := insertA idx path st.inoMap
            pathMap := insertA path idx st.pathMap
            inoIndex := idx }, [idx])

/-- One entry appended to a `ReplyDirectory`:
`reply.add(attr.ino, i, attr.kind, info.name())`. -/
structure DirEntry where
  ino : Nat
  off : Nat
  kind : FileType
  name : List Nat
deriving DecidableEq, Repr

/-- Outcome of a `readdir` request: `reply.ok()` with the entries that
were appended, `reply.error(ENOENT)`, or a panic (failed `unwrap`). -/
inductive RdOut
  | ok (entries : List DirEntry)
  | err
  | panicked
deriving DecidableEq, Repr

/-- Outcome of a `lookup` request. -/
inductive LkOut
  | entry (attr : FileAttr)
  | err
  | panicked
deriving DecidableEq, Repr

/-- Outcome of a `getattr` request. -/
inductive AtOut
  | attr (a : FileAttr)
  | err
  | panicked
deriving DecidableEq, Repr

/-- Outcome of a `read` request. -/
inductive ReadOut
  | data (bytes : List Nat)
  | err
deriving DecidableEq, Repr

/-- The directory the listing targets: inode `1` is hardwired to the
commit root, every other inode goes through `inoMap` (readdir
lines 72–81). -/
def rdTarget (st : MyFS) (ino : Nat) : Option (List Nat) :=
  if ino == 1 then some [] else lookupA ino st.inoMap

/-- The `for info in children.skip(offset)` loop of `readdir`
(lines 88–120).  Per child: a per-item enumeration error replies
`ENOENT`; the name is decoded (`to_str().unwrap()`, panic on invalid
UTF-8); the registered path is `format!("/{}", name)` — a slash and the
bare name, whatever the parent was; assign-or-get the inode and insert
into both maps; then `reply.add`.  `reply.add` returns `true` iff the
buffer is full (in which case the entry was not appended); the source
breaks out of the loop when `add` returned `false` (`if !ok break`),
i.e. immediately after the first successful append. -/
def readdirLoop (cap : Nat) :
    List (Option FileInfoR) → MyFS → Nat → List DirEntry →
      MyFS × RdOut × List Nat
  | [], st, _, acc => (st, RdOut.ok acc, [])
  | none :: _, st, _, _ => (st, RdOut.err, [])
  | some info :: rest, st, i, acc =>
    if utf8Valid info.name then
      let r := assignOrGet (47 :: info.name) st
      let attr := info2attr info r.1
      if acc.length < cap then
        (r.2.1, RdOut.ok (acc ++ [⟨attr.ino, i + 1, attr.kind, info.name⟩]),
          r.2.2)
      else
        let w := readdirLoop cap rest r.2.1 (i + 1) acc
        (w.1, w.2.1, r.2.2 ++ w.2.2)
    else (st, RdOut.panicked, [])

/-- Handler `MyFS::readdir` (lines 63–122): resolve the inode (inode `1` is the
root), enumerate the children, skip the first `offset` of them, then run
the loop.  Returns the new state, the reply, and the freshly allocated
inodes. -/
def readdir (ts : TreeSource) (st : MyFS) (ino offset cap : Nat) :
    MyFS × RdOut × List Nat :=
  match rdTarget st ino with
  | none => (st, RdOut.err, [])
  | some path =>
    match ts.enumerateChildren path with
    | none => (st, RdOut.err, [])
    | some children => readdirLoop cap (children.drop offset) st offset []

/-- The candidate path of a `lookup` (lines 127–134): the bare name when
the parent is the root inode, otherwise the parent's path, `/`, and the
name; `none` when the parent inode is unknown. -/
def lookupPathOf (st : MyFS) (parent : Nat) (name : List Nat) :
    Option (List Nat) :=
  if parent == 1 then some name
  else
    match lookupA parent st.inoMap with
    | none => none
    | some pp => some (pp ++ 47 :: name)

/-- Handler `MyFS::lookup` (lines 124–154): decode the name
(`to_str().unwrap()`, panic on invalid UTF-8), build the candidate path,
query the tree source (failure replies `ENOENT` before anything is
allocated), then assign-or-get the inode and reply with the translated
attributes. -/
def lookup (ts : TreeSource) (st : MyFS) (parent : Nat) (name : List Nat) :
    MyFS × LkOut × List Nat :=
  if utf8Valid name then
    match lookupPathOf st parent name with
    | none => (st, LkOut.err, [])
    | some path =>
      match ts.queryInfo path with
      | none => (st, LkOut.err, [])
      | some info =>
        let r := assignOrGet path st
        (r.2.1, LkOut.entry (info2attr info r.1), r.2.2)
  else (st, LkOut.panicked, [])

/-- Handler `MyFS::getattr` (lines 156–176): inode `1` queries the tree source
at the root directly and `unwrap`s the result — a failed root query is
a panic, not an error reply; other inodes reply `ENOENT` on an unknown
inode or a failed query.  The state is not touched. -/
def getattr (ts : TreeSource) (st : MyFS) (ino : Nat) : AtOut :=
  if ino == 1 then
    match ts.queryInfo [] with
    | none => AtOut.panicked
    | some info => AtOut.attr (info2attr info ino)
  else
    match lookupA ino st.inoMap with
    | none => AtOut.err
    | some path =>
      match ts.queryInfo path with
      | none => AtOut.err
      | some info => AtOut.attr (info2attr info ino)

/-- Handler `MyFS::read` (lines 178–202): resolve the inode through `inoMap`
(no special case for the root), `load_bytes` the whole object and reply
with all of it; the `offset` and `size` request arguments are bound but
never used.  The state is not touched. -/
def MyFS.read (ts : TreeSource) (st : MyFS) (ino offset size : Nat) : ReadOut :=
  match lookupA ino st.inoMap with
  | none => ReadOut.err
  | some path =>
    match ts.loadBytes path with
    | none => ReadOut.err
    | some d => ReadOut.data d

/-- One kernel-bridge request, for reasoning about whole mounts. -/
inductive Op
  | readdir (ino offset cap : Nat)
  | lookup (parent : Nat) (name : List Nat)
  | getattr (ino : Nat)
  | read (ino offset size : Nat)

/-- Apply one request to the adapter state; `getattr` and `read` do not
mutate.  Returns the new state and the freshly allocated inodes. -/
def applyOp (ts : TreeSource) (st : MyFS) : Op → MyFS × List Nat
  | Op.readdir ino off cap =>
    let r := readdir ts st ino off cap
    (r.1, r.2.2)
  | Op.lookup parent name =>
    let r := lookup ts st parent name
    (r.1, r.2.2)
  | Op.getattr _ => (st, [])
  | Op.read _ _ _ => (st, [])

/-- Run a sequence of requests; returns the final state and the
concatenated list of freshly allocated inodes. -/
def exec (ts : TreeSource) : List Op → MyFS → MyFS × List Nat
  | [], st => (st, [])
  | op :: ops, st =>
    let r := applyOp ts st op
    let w := exec ts ops r.1
    (w.1, r.2 ++ w.2)

/-- The two table directions are strict inverses. -/
def Inverse (st : MyFS) : Prop :=
  ∀ i p, lookupA i st.inoMap = some p ↔ lookupA p st.pathMap = some i

/-- Every inode in the table is bounded by the allocation counter. -/
def IdsLe (st : MyFS) : Prop :=
  ∀ i p, lookupA i st.inoMap = some p → i ≤ st.inoIndex

/-- The Identifier Table invariant carried through every request. -/
def TableInv (st : MyFS) : Prop := Inverse st ∧ IdsLe st

/-- Every entry of `st`, in both directions, is still present with the
same partner in `st'`. -/
def TablePreserved (st st' : MyFS) : Prop :=
  (∀ i p, lookupA i st.inoMap = some p → lookupA i st'.inoMap = some p) ∧
  (∀ p i, lookupA p st.pathMap = some i → lookupA p st'.pathMap = some i)

/-- Specification of one state transition of the adapter, relative to
the inodes `log` it freshly allocates: provided the table was a bounded
inverse pair and the allocation counter does not overflow `u64` during
the transition, it stays one, the counter advances by one per
allocation, the allocated inodes are the consecutive values above the
old counter, and no entry is lost or remapped. -/
def StepOk (st st' : MyFS) (log : List Nat) : Prop :=
  TableInv st → st.inoIndex + log.length < U64 →
    TableInv st' ∧ st'.inoIndex = st.inoIndex + log.length ∧
    log = List.range' (st.inoIndex + 1) log.length ∧ TablePreserved st st'

theorem lookupA_insertA_self {α β : Type} [DecidableEq α] (k : α) (v : β)
    (l : List (α × β)) : lookupA k (insertA k v l) = some v := by
  induction l with
  | nil => simp [insertA, lookupA]
  | cons hd t ih =>
    obtain ⟨k', v'⟩ := hd
    by_cases hk : k' = k
    · simp [insertA, hk, lookupA]
    · simp [insertA, hk, lookupA, ih]

theorem lookupA_insertA_ne {α β : Type} [DecidableEq α] {k k' : α} (v : β)
    (l : List (α × β)) (hne : k' ≠ k) :
    lookupA k' (insertA k v l) = lookupA k' l := by
  have hkk : ¬ (k = k') := fun h => hne h.symm
  induction l with
  | nil => simp [insertA, lookupA, hkk]
  | cons hd t ih =>
    obtain ⟨k'', v''⟩ := hd
    by_cases hk : k'' = k
    · subst hk
      simp [insertA, lookupA, hkk]
    · by_cases hk2 : k'' = k'
      · simp [insertA, lookupA, hk, hk2, hkk, hne]
      · simp [insertA, lookupA, hk, hk2, ih]

theorem insertA_lookupA_eq {α β : Type} [DecidableEq α] {k : α} {v : β}
    {l : List (α × β)} (h : lookupA k l = some v) : insertA k v l = l := by
  induction l with
  | nil => simp [lookupA] at h
  | cons hd t ih =>
    obtain ⟨k', v'⟩ := hd
    by_cases hk : k' = k
    · subst hk
      simp [lookupA] at h
      simp [insertA, h]
    · simp [lookupA, hk] at h
      simp [insertA, hk, ih h]

theorem rangeConsecAppend (a m n : Nat) :
    List.range' a m ++ List.range' (a + m) n = List.range' a (m + n) := by
  induction m generalizing a with
  | zero => simp [List.range']
  | succ m ih =>
    have h1 : a + (m + 1) = (a + 1) + m := by omega
    have h2 : m + 1 + n = (m + n) + 1 := by omega
    simp [List.range', h1, h2, ih (a + 1)]

theorem stepOk_refl (st : MyFS) : StepOk st st [] := by
  intro hinv _
  refine ⟨hinv, by simp, by simp, ?_, ?_⟩ <;> intro a b h <;> exact h

theorem stepOk_trans {s1 s2 s3 : MyFS} {l1 l2 : List Nat}
    (h12 : StepOk s1 s2 l1) (h23 : StepOk s2 s3 l2) :
    StepOk s1 s3 (l1 ++ l2) := by
  intro hinv hbound
  simp only [List.length_append] at hbound
  obtain ⟨hinv2, hidx2, hlog1, hp1⟩ := h12 hinv (by omega)
  obtain ⟨hinv3, hidx3, hlog2, hp2⟩ := h23 hinv2 (by omega)
  refine ⟨hinv3, ?_, ?_, ?_, ?_⟩
  · simp only [List.length_append]
    omega
  · have hr := rangeConsecAppend (s1.inoIndex + 1) l1.length l2.length
    rw [List.length_append, ← hr, ← hlog1]
    have hx : s1.inoIndex + 1 + l1.length = s2.inoIndex + 1 := by omega
    rw [hx, ← hlog2]
  · intro i p h
    exact hp2.1 i p (hp1.1 i p h)
  · intro p i h
    exact hp2.2 p i (hp1.2 p i h)

/-- When the path is already in the table of an inverse-consistent
state, assign-or-get returns the existing inode and leaves the state
untouched (the unconditional re-inserts write back the pair that is
already there). -/
theorem assignOrGet_mem {st : MyFS} {p : List Nat} {i : Nat}
    (hinv : Inverse st) (h : lookupA p st.pathMap = some i) :
    assignOrGet p st = (i, st, []) := by
  have hino : lookupA i st.inoMap = some p := (hinv i p).mpr h
  simp [assignOrGet, h, insertA_lookupA_eq hino, insertA_lookupA_eq h]

/-- Assign-or-get on a path that is not yet in the table, below the
`u64` bound: the successor of the counter is allocated and both
directions gain the pair. -/
theorem assignOrGet_fresh {st : MyFS} {p : List Nat}
    (h : lookupA p st.pathMap = none) (hb : st.inoIndex + 1 < U64) :
    assignOrGet p st =
      (st.inoIndex + 1,
       { inoMap := insertA (st.inoIndex + 1) p st.inoMap
         pathMap := insertA p (st.inoIndex + 1) st.pathMap
         inoIndex := st.inoIndex + 1 }, [st.inoIndex + 1]) := by
  simp [assignOrGet, h, Nat.mod_eq_of_lt hb]

theorem assignOrGet_stepOk (p : List Nat) (st : MyFS) :
    StepOk st (assignOrGet p st).2.1 (assignOrGet p st).2.2 := by
  cases h : lookupA p st.pathMap with
  | some i =>
    intro hinv hbound
    have heq := assignOrGet_mem hinv.1 h
    rw [heq]
    exact stepOk_refl st hinv (by simpa [heq] using hbound)
  | none =>
    intro hinv hbound
    obtain ⟨hiv, hle⟩ := hinv
    have hb : st.inoIndex + 1 < U64 := by
      have hlen : (assignOrGet p st).2.2.length = 1 := by
        simp [assignOrGet, h]
      omega
    have heq := assignOrGet_fresh h hb
    rw [heq]
    set idx := st.inoIndex + 1 with hidx
    have hfresh : ∀ q, lookupA idx st.inoMap = some q → False := by
      intro q hq
      have := hle idx q hq
      omega
    refine ⟨⟨?_, ?_⟩, by simp, by simp [List.range'], ?_, ?_⟩
    · -- Inverse of the extended table
      intro j q
      by_cases hj : j = idx
      · subst hj
        by_cases hq : q = p
        · subst hq
          simp [lookupA_insertA_self]
        · constructor
          · intro hx
            rw [lookupA_insertA_self] at hx
            exact absurd (Option.some.inj hx) (fun hc => hq hc.symm)
          · intro hx
            rw [lookupA_insertA_ne idx st.pathMap hq] at hx
            exact absurd ((hiv idx q).mpr hx) (fun hc => hfresh q hc)
      · by_cases hq : q = p
        · constructor
          · intro hx
            rw [hq] at hx
            rw [lookupA_insertA_ne p st.inoMap hj] at hx
            have hx2 := (hiv j p).mp hx
            rw [h] at hx2
            exact absurd hx2 (by simp)
          · intro hx
            rw [hq] at hx
            rw [lookupA_insertA_self] at hx
            exact absurd (Option.some.inj hx) (fun hc => hj hc.symm)
        · rw [lookupA_insertA_ne p st.inoMap hj,
            lookupA_insertA_ne idx st.pathMap hq]
          exact hiv j q
    · -- IdsLe of the extended table
      intro j q hj
      by_cases hjx : j = idx
      · subst hjx; simp
      · rw [lookupA_insertA_ne p st.inoMap hjx] at hj
        have := hle j q hj
        simp
        omega
    · intro j q hj
      have hjx : j ≠ idx := by
        intro hc
        exact hfresh q (hc ▸ hj)
      rw [lookupA_insertA_ne p st.inoMap hjx]
      exact hj
    · intro q j hq
      have hqx : q ≠ p := by
        intro hc
        rw [hc, h] at hq
        exact absurd hq (by simp)
      rw [lookupA_insertA_ne idx st.pathMap hqx]
      exact hq

theorem readdirLoop_stepOk (cap : Nat) (children : List (Option FileInfoR)) :
    ∀ (st : MyFS) (i : Nat) (acc : List DirEntry),
      StepOk st (readdirLoop cap children st i acc).1
        (readdirLoop cap children st i acc).2.2 := by
  induction children with
  | nil =>
    intro st i acc
    have heq : readdirLoop cap [] st i acc = (st, RdOut.ok acc, []) := by
      simp [readdirLoop]
    rw [heq]
    exact stepOk_refl st
  | cons c rest ih =>
    intro st i acc
    cases c with
    | none =>
      have heq : readdirLoop cap (none :: rest) st i acc
          = (st, RdOut.err, []) := by
        simp [readdirLoop]
      rw [heq]
      exact stepOk_refl st
    | some info =>
      cases hv : utf8Valid info.name with
      | false =>
        have heq : readdirLoop cap (some info :: rest) st i acc
            = (st, RdOut.panicked, []) := by
          simp [readdirLoop, hv]
        rw [heq]
        exact stepOk_refl st
      | true =>
        by_cases hcap : acc.length < cap
        · have h1 := assignOrGet_stepOk (47 :: info.name) st
          simpa [readdirLoop, hv, hcap] using h1
        · have h1 := assignOrGet_stepOk (47 :: info.name) st
          have h2 := ih (assignOrGet (47 :: info.name) st).2.1 (i + 1) acc
          have h3 := stepOk_trans h1 h2
          simpa [readdirLoop, hv, hcap] using h3

theorem readdir_stepOk (ts : TreeSource) (st : MyFS) (ino off cap : Nat) :
    StepOk st (readdir ts st ino off cap).1 (readdir ts st ino off cap).2.2 := by
  cases h1 : rdTarget st ino with
  | none =>
    simp only [readdir, h1]
    exact stepOk_refl st
  | some path =>
    cases h2 : ts.enumerateChildren path with
    | none =>
      simp only [readdir, h1, h2]
      exact stepOk_refl st
    | some children =>
      simp only [readdir, h1, h2]
      exact readdirLoop_stepOk cap (children.drop off) st off []

theorem lookup_stepOk (ts : TreeSource) (st : MyFS) (parent : Nat)
    (name : List Nat) :
    StepOk st (lookup ts st parent name).1 (lookup ts st parent name).2.2 := by
  cases hv : utf8Valid name with
  | false =>
    have heq : lookup ts st parent name = (st, LkOut.panicked, []) := by
      simp [lookup, hv]
    rw [heq]
    exact stepOk_refl st
  | true =>
    cases h1 : lookupPathOf st parent name with
    | none =>
      have heq : lookup ts st parent name = (st, LkOut.err, []) := by
        simp [lookup, hv, h1]
      rw [heq]
      exact stepOk_refl st
    | some path =>
      cases h2 : ts.queryInfo path with
      | none =>
        have heq : lookup ts st parent name = (st, LkOut.err, []) := by
          simp [lookup, hv, h1, h2]
        rw [heq]
        exact stepOk_refl st
      | some info =>
        have h3 := assignOrGet_stepOk path st
        simpa [lookup, hv, h1, h2] using h3

theorem applyOp_stepOk (ts : TreeSource) (st : MyFS) (op : Op) :
    StepOk st (applyOp ts st op).1 (applyOp ts st op).2 := by
  cases op with
  | readdir ino off cap => exact readdir_stepOk ts st ino off cap
  | lookup parent name => exact lookup_stepOk ts st parent name
  | getattr ino => exact stepOk_refl st
  | read ino off size => exact stepOk_refl st

theorem exec_stepOk (ts : TreeSource) (ops : List Op) :
    ∀ st : MyFS, StepOk st (exec ts ops st).1 (exec ts ops st).2 := by
  induction ops with
  | nil =>
    intro st
    exact stepOk_refl st
  | cons op ops ih =>
    intro st
    have h1 := applyOp_stepOk ts st op
    have h2 := ih (applyOp ts st op).1
    have h3 := stepOk_trans h1 h2
    simpa [exec] using h3

theorem exec_append (ts : TreeSource) (ops1 ops2 : List Op) (st : MyFS) :
    exec ts (ops1 ++ ops2) st =
      ((exec ts ops2 (exec ts ops1 st).1).1,
       (exec ts ops1 st).2 ++ (exec ts ops2 (exec ts ops1 st).1).2) := by
  induction ops1 generalizing st with
  | nil => simp [exec]
  | cons op ops ih => simp [exec, ih, List.append_assoc]

theorem tableInv_initFS : TableInv initFS := by
  constructor
  · intro i p
    simp only [initFS, lookupA]
    constructor
    · intro h
      split at h
      · rename_i hi
        obtain rfl := Option.some.inj h
        simp [← hi]
      · exact absurd h (by simp)
    · intro h
      split at h
      · rename_i hp
        obtain rfl := Option.some.inj h
        simp [← hp]
      · exact absurd h (by simp)
  · intro i p h
    simp only [initFS, lookupA] at h
    split at h
    · rename_i hi
      simp [initFS, ← hi]
    · exact absurd h (by simp)

/-- If the listing loop panics, some enumerated child it was given has
a name that is not valid UTF-8. -/
theorem readdirLoop_abort_name (cap : Nat) (children : List (Option FileInfoR)) :
    ∀ (st : MyFS) (i : Nat) (acc : List DirEntry),
      (readdirLoop cap children st i acc).2.1 = RdOut.panicked →
        ∃ info, some info ∈ children ∧ utf8Valid info.name = false := by
  induction children with
  | nil =>
    intro st i acc h
    simp [readdirLoop] at h
  | cons c rest ih =>
    intro st i acc h
    cases c with
    | none => simp [readdirLoop] at h
    | some info =>
      cases hv : utf8Valid info.name with
      | false => exact ⟨info, List.mem_cons_self _ _, hv⟩
      | true =>
        by_cases hcap : acc.length < cap
        · simp [readdirLoop, hv, hcap] at h
        · simp only [readdirLoop, hv, if_true] at h
          rw [if_neg hcap] at h
          obtain ⟨info', hmem, hbad⟩ := ih _ _ _ h
          exact ⟨info', List.mem_cons_of_mem _ hmem, hbad⟩

/-- Metadata of the commit root in the demonstration tree. -/
def infoRoot : FileInfoR := ⟨[], 0, 7, GFileType.directory⟩

/-- A directory child named `a` (byte 97) with reported size 0. -/
def infoA : FileInfoR := ⟨[97], 0, 11, GFileType.directory⟩

/-- A regular-file child named `b` (byte 98) of size 13. -/
def infoB : FileInfoR := ⟨[98], 13, 22, GFileType.regular⟩

/-- A child whose name is the single byte `0xFF`, not valid UTF-8. -/
def infoBad : FileInfoR := ⟨[255], 5, 3, GFileType.regular⟩

/-- Demonstration tree source: the root contains the directory `a` and
the file `b`; the directory `a` contains `b`; `b`'s content is two
bytes. -/
def tsDemo : TreeSource :=
  { queryInfo := fun p =>
      if p = [] then some infoRoot
      else if p = [97] then some infoA
      else if p = [98] then some infoB
      else none
    enumerateChildren := fun p =>
      if p = [] then some [some infoA, some infoB]
      else if p = [97] then some [some infoB]
      else none
    loadBytes := fun p =>
      if p = [98] then some [72, 105] else none }

/-- A tree source whose metadata queries all fail and whose root
listing starts with the invalidly named child. -/
def tsBad : TreeSource :=
  { queryInfo := fun _ => none
    enumerateChildren := fun p =>
      if p = [] then some [some infoBad, some infoB] else none
    loadBytes := fun _ => none }

/-- A table state in which inode 2 is the file `b`. -/
def stW : MyFS :=
  { inoMap := [(1, []), (2, [98])], pathMap := [([], 1), ([98], 2)], inoIndex := 2 }

/-- C1: the claim — children are registered under the join of the
parent's path, `/`, and the name, so listing and a subsequent lookup
agree on the child's identifier — fails on the code.  On the
demonstration tree, listing the root registers child `a` under `/a`
(bytes `[47, 97]`) with inode 2, but the subsequent
`lookup(parent = 1, "a")` builds the candidate path `a` (bytes `[97]`),
misses the table and allocates a fresh inode 3; and listing the
directory `a` (inode 3, path `a`) registers its child `b` under `/b`,
not under the joined path `a/b`. -/
theorem c1_listing_lookup_inode_mismatch :
    (readdir tsDemo initFS 1 0 10).2.1
      = RdOut.ok [⟨2, 1, FileType.directory, [97]⟩] ∧
    (lookup tsDemo (readdir tsDemo initFS 1 0 10).1 1 [97]).2.1
      = LkOut.entry (info2attr infoA 3) ∧
    lookupA ([97] ++ 47 :: [98])
      (readdir tsDemo (exec tsDemo [Op.readdir 1 0 10, Op.lookup 1 [97]] initFS).1
        3 0 10).1.pathMap = none ∧
    lookupA (47 :: [98])
      (readdir tsDemo (exec tsDemo [Op.readdir 1 0 10, Op.lookup 1 [97]] initFS).1
        3 0 10).1.pathMap = some 4 := by
  decide

/-- C2 counterexample: when the tree source's metadata query at the
root's empty path fails, `getattr` of inode 1 panics on the `unwrap`
instead of replying "no such entry". -/
theorem c2_root_attr_query_failure_aborts :
    getattr tsBad initFS 1 = AtOut.panicked ∧
    getattr tsBad initFS 1 ≠ AtOut.err := by
  decide

/-- C2 amended: every attribute query either returns a translated
attribute record or reports "no such entry", except that a failing
metadata query at the root's empty path makes the handler abort
(panic) rather than reply. -/
theorem c2_getattr_replies_except_root_query_failure
    (ts : TreeSource) (st : MyFS) (ino : Nat) :
    (∃ a, getattr ts st ino = AtOut.attr a) ∨
    getattr ts st ino = AtOut.err ∨
    (ino = 1 ∧ ts.queryInfo [] = none ∧ getattr ts st ino = AtOut.panicked) := by
  by_cases hi : ino = 1
  · cases hq : ts.queryInfo [] with
    | none =>
      refine Or.inr (Or.inr ⟨hi, rfl, ?_⟩)
      simp [getattr, hi, hq]
    | some info =>
      refine Or.inl ⟨info2attr info ino, ?_⟩
      simp [getattr, hi, hq]
  · cases h1 : lookupA ino st.inoMap with
    | none =>
      refine Or.inr (Or.inl ?_)
      simp [getattr, hi, h1]
    | some path =>
      cases h2 : ts.queryInfo path with
      | none =>
        refine Or.inr (Or.inl ?_)
        simp [getattr, hi, h1, h2]
      | some info =>
        refine Or.inl ⟨info2attr info ino, ?_⟩
        simp [getattr, hi, h1, h2]

/-- C3: for an inode with a live table entry whose content loads
successfully, the data-read reply is the complete byte content of the
object, and the reply does not depend on the request's byte offset or
size arguments at all. -/
theorem c3_read_ignores_offset_and_size (ts : TreeSource) (st : MyFS)
    (ino o1 s1 o2 s2 : Nat) (p d : List Nat)
    (hp : lookupA ino st.inoMap = some p)
    (hd : ts.loadBytes p = some d) :
    MyFS.read ts st ino o1 s1 = ReadOut.data d ∧
    MyFS.read ts st ino o1 s1 = MyFS.read ts st ino o2 s2 := by
  constructor
  · simp [MyFS.read, hp, hd]
  · rfl

theorem c3_witness :
    MyFS.read tsDemo stW 2 0 4096 = ReadOut.data [72, 105] ∧
    MyFS.read tsDemo stW 2 0 4096 = MyFS.read tsDemo stW 2 9 1 :=
  c3_read_ignores_offset_and_size tsDemo stW 2 0 4096 9 1 [98] [72, 105]
    (by decide) (by decide)

/-- C4: after the root is seeded and any sequence of requests is served
(with fewer than `2 ^ 64 - 1` fresh allocations, so that the `u64`
counter cannot wrap), the inode→path and path→inode maps are strict
inverses, and every entry present after a prefix of the requests is
still present, with the same partner, after the rest. -/
theorem c4_table_bijective_and_persistent (ts : TreeSource)
    (ops1 ops2 : List Op)
    (h : (exec ts (ops1 ++ ops2) initFS).2.length + 1 < U64) :
    Inverse (exec ts (ops1 ++ ops2) initFS).1 ∧
    TablePreserved (exec ts ops1 initFS).1 (exec ts (ops1 ++ ops2) initFS).1 := by
  have happ := exec_append ts ops1 ops2 initFS
  have hlen : (exec ts (ops1 ++ ops2) initFS).2.length =
      (exec ts ops1 initFS).2.length +
        (exec ts ops2 (exec ts ops1 initFS).1).2.length := by
    rw [happ]
    simp
  have hinit : initFS.inoIndex = 1 := rfl
  obtain ⟨hinv1, hidx1, _, hp1⟩ :=
    exec_stepOk ts ops1 initFS tableInv_initFS (by rw [hinit]; omega)
  obtain ⟨hinv2, _, _, hp2⟩ :=
    exec_stepOk ts ops2 (exec ts ops1 initFS).1 hinv1 (by rw [hidx1, hinit]; omega)
  constructor
  · rw [happ]
    exact hinv2.1
  · rw [happ]
    exact ⟨fun i p hx => hp2.1 i p hx, fun p i hx => hp2.2 p i hx⟩

theorem c4_witness :
    Inverse (exec tsDemo ([Op.readdir 1 0 5] ++ [Op.lookup 1 [97]]) initFS).1 ∧
    TablePreserved (exec tsDemo [Op.readdir 1 0 5] initFS).1
      (exec tsDemo ([Op.readdir 1 0 5] ++ [Op.lookup 1 [97]]) initFS).1 :=
  c4_table_bijective_and_persistent tsDemo [Op.readdir 1 0 5] [Op.lookup 1 [97]]
    (by decide)

/-- C5: in any state reachable within one mount (with the same
no-counter-wrap bound), assign-or-get on a path that is already in the
path→inode map returns the existing identifier and leaves the table
and the counter completely unchanged. -/
theorem c5_assign_or_get_idempotent (ts : TreeSource) (ops : List Op)
    (p : List Nat) (i : Nat)
    (hb : (exec ts ops initFS).2.length + 1 < U64)
    (hp : lookupA p (exec ts ops initFS).1.pathMap = some i) :
    assignOrGet p (exec ts ops initFS).1 = (i, (exec ts ops initFS).1, []) := by
  have hinit : initFS.inoIndex = 1 := rfl
  obtain ⟨hinv, _, _, _⟩ :=
    exec_stepOk ts ops initFS tableInv_initFS (by rw [hinit]; omega)
  exact assignOrGet_mem hinv.1 hp

theorem c5_witness :
    assignOrGet [] (exec tsDemo [Op.readdir 1 0 5] initFS).1 =
      (1, (exec tsDemo [Op.readdir 1 0 5] initFS).1, []) :=
  c5_assign_or_get_idempotent tsDemo [Op.readdir 1 0 5] [] 1 (by decide) (by decide)

/-- C6: over any request sequence from the seeded initial state (within
the `u64` bound), the freshly allocated identifiers are exactly the
consecutive values `2, 3, 4, …` in order of allocation — so each fresh
identifier is strictly greater than all previously allocated ones and
the first one is 2, regardless of the order of requests. -/
theorem c6_allocation_consecutive_from_two (ts : TreeSource) (ops : List Op)
    (h : (exec ts ops initFS).2.length + 1 < U64) :
    (exec ts ops initFS).2 = List.range' 2 (exec ts ops initFS).2.length := by
  have hinit : initFS.inoIndex = 1 := rfl
  obtain ⟨_, _, hlog, _⟩ :=
    exec_stepOk ts ops initFS tableInv_initFS (by rw [hinit]; omega)
  exact hlog

theorem c6_witness :
    (exec tsDemo [Op.readdir 1 0 5, Op.lookup 1 [97]] initFS).2 =
      List.range' 2 (exec tsDemo [Op.readdir 1 0 5, Op.lookup 1 [97]] initFS).2.length :=
  c6_allocation_consecutive_from_two tsDemo [Op.readdir 1 0 5, Op.lookup 1 [97]]
    (by decide)

/-- C7: a name-resolution request whose candidate path the tree source
cannot resolve replies "no such entry" and returns the state untouched:
no identifier is allocated and neither map gains an entry. -/
theorem c7_lookup_miss_leaves_table_unchanged (ts : TreeSource) (st : MyFS)
    (parent : Nat) (name path : List Nat)
    (hv : utf8Valid name = true)
    (hp : lookupPathOf st parent name = some path)
    (hq : ts.queryInfo path = none) :
    lookup ts st parent name = (st, LkOut.err, []) := by
  simp [lookup, hv, hp, hq]

theorem c7_witness : lookup tsBad initFS 1 [97] = (initFS, LkOut.err, []) :=
  c7_lookup_miss_leaves_table_unchanged tsBad initFS 1 [97] [97]
    (by decide) (by decide) (by decide)

/-- The (name, kind) projection of a listing reply. -/
def rdNamesKinds : RdOut → List (List Nat × FileType)
  | RdOut.ok es => es.map (fun e => (e.name, e.kind))
  | _ => []

/-- C8: the pagination claim — listing with offset `k` yields the
suffix at `k` of listing with offset `0` — fails on the code.  Because
`reply.add` returns `true` when the buffer is full and the loop breaks
on `!ok`, the handler stops after its first successful append, so each
call returns a single entry: on the demonstration tree (root children
`a` then `b`), offset 0 yields `[a]`, offset 1 yields `[b]`, and `[b]`
is not the suffix at 1 of `[a]` (which is empty). -/
theorem c8_offset_listing_not_suffix :
    rdNamesKinds (readdir tsDemo initFS 1 0 10).2.1
      = [([97], FileType.directory)] ∧
    rdNamesKinds (readdir tsDemo initFS 1 1 10).2.1
      = [([98], FileType.regularFile)] ∧
    rdNamesKinds (readdir tsDemo initFS 1 1 10).2.1 ≠
      List.drop 1 (rdNamesKinds (readdir tsDemo initFS 1 0 10).2.1) := by
  decide

/-- C9: the attribute translation reports size 4096 exactly when the
tree source reports size 0 (whatever the kind — in particular for a
size-0 directory), and the tree source's size unchanged otherwise. -/
theorem c9_attr_size_zero_floor (info : FileInfoR) (ino : Nat) :
    (info2attr info ino).size = if info.size = 0 then 4096 else info.size := by
  by_cases h : info.size = 0 <;> simp [info2attr, h]

/-- C10 counterexample: an enumerated child name that is not valid
UTF-8 does not make the handler abort when the request's offset skips
it — the listing still replies.  On `tsBad` (children: the invalidly
named child, then `b`), listing with offset 1 replies with `b`. -/
theorem c10_skipped_invalid_name_still_replies :
    utf8Valid [255] = false ∧
    (readdir tsBad initFS 1 1 10).2.1
      = RdOut.ok [⟨2, 2, FileType.regularFile, [98]⟩] ∧
    (readdir tsBad initFS 1 1 10).2.1 ≠ RdOut.panicked := by
  decide

/-- C10 amended: `lookup` aborts (panics on the failed string
conversion, sending no reply) exactly when the looked-up name is not
valid UTF-8; `readdir` can abort only when some child at or after the
requested offset has a name that is not valid UTF-8 (names skipped by
the offset, or never reached, cannot cause the abort). -/
theorem c10_utf8_abort_characterization (ts : TreeSource) (st : MyFS)
    (parent : Nat) (name : List Nat) (ino off cap : Nat) :
    ((lookup ts st parent name).2.1 = LkOut.panicked ↔
      utf8Valid name = false) ∧
    ((readdir ts st ino off cap).2.1 = RdOut.panicked →
      ∃ path children info, rdTarget st ino = some path ∧
        ts.enumerateChildren path = some children ∧
        some info ∈ children.drop off ∧ utf8Valid info.name = false) := by
  constructor
  · cases hv : utf8Valid name with
    | false => simp [lookup, hv]
    | true =>
      constructor
      · intro h
        exfalso
        cases h1 : lookupPathOf st parent name with
        | none => simp [lookup, hv, h1] at h
        | some path =>
          cases h2 : ts.queryInfo path with
          | none => simp [lookup, hv, h1, h2] at h
          | some info => simp [lookup, hv, h1, h2] at h
      · intro h
        simp at h
  · intro h
    cases h1 : rdTarget st ino with
    | none => simp [readdir, h1] at h
    | some path =>
      cases h2 : ts.enumerateChildren path with
      | none => simp [readdir, h1, h2] at h
      | some children =>
        simp only [readdir, h1, h2] at h
        obtain ⟨info, hmem, hbad⟩ :=
          readdirLoop_abort_name cap (children.drop off) st off [] h
        exact ⟨path, children, info, rfl, h2, hmem, hbad⟩

theorem c10_witness : (lookup tsBad initFS 1 [255]).2.1 = LkOut.panicked :=
  (c10_utf8_abort_characterization tsBad initFS 1 [255] 0 0 0).1.mpr (by decide)
